import Mathlib

/-!
A verification development for the kopf reactor activities module
(`src/kopf/reactor/activities.py`): the batch runner `run_activity`,
the `authenticate` routine and the `authenticator` loop, together with
the collaborating state machine (`State` / `HandlerOutcome` from
`kopf/reactor/states.py`, not present in the sources) modelled from the
specification.

Handler identifiers, results and exceptions are represented by natural
numbers; Python dictionaries become association lists whose update
operation mirrors `dict.update` (existing keys keep their position and
receive the new value, fresh keys are appended in order).  The external
tick `handling.execute_handlers_once` is an oracle: a batch run is
parametrised by the list of per-pass outcome mappings it would return.
-/

namespace Kopf

/-- Handler identifiers (`HandlerId` is an opaque stable identifier). -/
abbrev HandlerId := Nat

/-- Handler result payloads (opaque `callbacks.Result` / credentials info). -/
abbrev Res := Nat

/-- Exception values attached to failed outcomes (opaque). -/
abbrev Exn := Nat

/-- Modelled from the spec: `HandlerOutcome` of the missing
`kopf/reactor/states.py` is one of success with an optional result,
temporary failure with an error and a retry delay, permanent failure
with an error, or still-pending; it never holds a result and an
exception simultaneously. -/
inductive HandlerOutcome where
  | success (result : Option Res)
  | temporary (exn : Exn) (delay : Nat)
  | permanent (exn : Exn)
  | pending
deriving DecidableEq, Repr

/-- The `outcome.exception` attribute: the error carried by a failure
outcome, absent for success and pending. -/
def HandlerOutcome.exception : HandlerOutcome → Option Exn
  | .success _ => none
  | .temporary e _ => some e
  | .permanent e => some e
  | .pending => none

/-- The `outcome.result` attribute: the result value of a success
outcome, absent otherwise. -/
def HandlerOutcome.result : HandlerOutcome → Option Res
  | .success r => r
  | _ => none

/-- An outcome is terminal (resolved) when it is a success or a
permanent failure. -/
def HandlerOutcome.finalized : HandlerOutcome → Bool
  | .success _ => true
  | .permanent _ => true
  | _ => false

/-- The retry delay requested by a temporary failure, absent for all
other outcomes. -/
def HandlerOutcome.tempDelay : HandlerOutcome → Option Nat
  | .temporary _ d => some d
  | _ => none

/-- Whether an outcome is a success (with or without a result value). -/
def HandlerOutcome.isSuccess : HandlerOutcome → Bool
  | .success _ => true
  | _ => false

/-- A per-pass outcome mapping, as returned by the execution tick:
one entry per invoked handler. -/
abbrev Outcomes := List (HandlerId × HandlerOutcome)

/-- One-key update of an association list with Python `dict` semantics:
an existing key keeps its position and receives the new value, a fresh
key is appended at the end. -/
def assocUpdate {β : Type} (m : List (Nat × β)) (k : Nat) (v : β) :
    List (Nat × β) :=
  if m.any (fun p => p.1 == k) then
    m.map (fun p => if p.1 == k then (k, v) else p)
  else
    m ++ [(k, v)]

/-- Python `dict.update`: fold the one-key update over the new entries
in order. -/
def dictUpdate {β : Type} (m new : List (Nat × β)) : List (Nat × β) :=
  new.foldl (fun acc p => assocUpdate acc p.1 p.2) m

/-- Modelled from the spec: `State` of the missing
`kopf/reactor/states.py` maps every handler of the batch to its latest
outcome. -/
abbrev State := List (HandlerId × HandlerOutcome)

/-- Modelled from the spec: `State.from_scratch(handlers)` initialises
every handler to pending. -/
def State.from_scratch (handlers : List HandlerId) : State :=
  handlers.map (fun h => (h, HandlerOutcome.pending))

/-- Modelled from the spec: `State.with_outcomes(new)` returns a new
state where each handler named in `new` is overwritten and all others
retain their prior outcome. -/
def State.with_outcomes (s : State) (new : Outcomes) : State :=
  dictUpdate s new

/-- Modelled from the spec: `state.done` is true iff every handler of
the batch has a terminal outcome (success or permanent failure). -/
def State.done (s : State) : Bool :=
  s.all (fun p => p.2.finalized)

/-- Modelled from the spec: `state.delay` is the minimum retry delay
among the handlers with temporary failures, or absent when no handler
is pending a delayed retry. -/
def State.delay (s : State) : Option Nat :=
  match s.filterMap (fun p => p.2.tempDelay) with
  | [] => none
  | d :: ds => some (ds.foldl Nat.min d)

/-- The inter-pass sleep emitted at the end of one loop iteration of
`run_activity`: on a truthy `state.delay`, sleep for
`min(delay, WAITING_KEEPALIVE_INTERVAL)`; the cap is the parameter
`cap` since `handling.py` is outside the modelled sources. -/
def passSleep (cap : Nat) (s : State) : List Nat :=
  match State.delay s with
  | none => []
  | some d => if d = 0 then [] else [Nat.min d cap]

/-- The observable trace of one batch run: the accumulated outcome
mapping, the sleep durations passed to `sleeping.sleep_or_wait` in
order, and the number of passes (tick invocations) performed. -/
structure BatchRun where
  outcomes : Outcomes
  sleeps : List Nat
  passes : Nat
deriving DecidableEq, Repr

/-- The `while not state.done` loop of `run_activity`: each pass
consumes one oracle tick, merges it into the accumulated outcome
mapping (`outcomes.update(...)`) and into the state
(`state.with_outcomes(...)`), then sleeps on a positive merged delay.
Returns `none` when the oracle runs out of ticks while the loop would
still continue. -/
def runPasses (cap : Nat) : List Outcomes → State → Outcomes → Option BatchRun
  | ticks, state, acc =>
    if State.done state then
      some ⟨acc, [], 0⟩
    else
      match ticks with
      | [] => none
      | t :: rest =>
        let acc2 := dictUpdate acc t
        let state2 := State.with_outcomes state t
        match runPasses cap rest state2 acc2 with
        | none => none
        | some r => some ⟨r.outcomes, passSleep cap state2 ++ r.sleeps, r.passes + 1⟩

/-- The `ActivityError` raised by `run_activity`: the message, the
complete outcome mapping, and the proximate cause (the exception the
error is raised `from`). -/
structure ActivityError where
  msg : String
  outcomes : Outcomes
  cause : Exn
deriving DecidableEq, Repr

/-- Decidable equality of raised-or-returned batch outcomes, for
evaluating concrete runs. -/
instance exceptDecEq {ε α : Type} [DecidableEq ε] [DecidableEq α] :
    DecidableEq (Except ε α)
  | Except.error e₁, Except.error e₂ =>
    if h : e₁ = e₂ then isTrue (by rw [h])
    else isFalse (fun hc => h (Except.error.inj hc))
  | Except.error e₁, Except.ok a₂ => isFalse (fun hc => Except.noConfusion hc)
  | Except.ok a₁, Except.error e₂ => isFalse (fun hc => Except.noConfusion hc)
  | Except.ok a₁, Except.ok a₂ =>
    if h : a₁ = a₂ then isTrue (by rw [h])
    else isFalse (fun hc => h (Except.ok.inj hc))

/-- The first non-absent exception among the accumulated outcomes, in
mapping order (`exceptions[0]` in the source). -/
def firstException (outcomes : Outcomes) : Option Exn :=
  (outcomes.filterMap (fun p => p.2.exception)).head?

/-- The mapping of identifiable results returned on success: handlers
whose outcome carries a non-absent result, others omitted. -/
def successResults (outcomes : Outcomes) : List (HandlerId × Res) :=
  outcomes.filterMap (fun p => (p.2.result).map (fun r => (p.1, r)))

/-- The post-loop part of `run_activity`: raise `ActivityError` from
the first exception when any outcome carries one, otherwise return the
result mapping. -/
def finishRun (outcomes : Outcomes) : Except ActivityError (List (HandlerId × Res)) :=
  match firstException outcomes with
  | some e => Except.error ⟨"One or more handlers failed.", outcomes, e⟩
  | none => Except.ok (successResults outcomes)

/-- The loop of `run_activity` started on a fresh state for the
activity handlers, with an empty accumulated outcome mapping. -/
def runActivityFull (cap : Nat) (handlers : List HandlerId)
    (ticks : List Outcomes) : Option BatchRun :=
  runPasses cap ticks (State.from_scratch handlers) []

/-- `run_activity`: the observable sleeps and the final outcome
(raised error or returned result mapping); `none` when the given ticks
do not suffice to finish the loop. -/
def run_activity (cap : Nat) (handlers : List HandlerId)
    (ticks : List Outcomes) :
    Option (List Nat × Except ActivityError (List (HandlerId × Res))) :=
  (runActivityFull cap handlers ticks).map (fun r => (r.sleeps, finishRun r.outcomes))

/-- Observable events of `authenticate`, in program order. -/
inductive AuthEvent where
  | waitForEmptiness
  | logLine (s : String)
  | runBatch
  | populate (entries : List (String × Res))
deriving DecidableEq, Repr

/-- Whether an event is a log line (log wording is the only part of
`authenticate` that depends on the activity title). -/
def AuthEvent.isLog : AuthEvent → Bool
  | .logLine _ => true
  | _ => false

/-- Whether an event is a `vault.populate` call. -/
def AuthEvent.isPopulate : AuthEvent → Bool
  | .populate _ => true
  | _ => false

/-- How one `authenticate` call ended: still inside the batch loop,
terminated by a propagating `ActivityError`, or finished normally with
the mapping passed to `vault.populate`. -/
inductive AuthStatus where
  | running
  | failed (e : ActivityError)
  | finished (popArg : List (String × Res))
deriving DecidableEq, Repr

/-- Whether an `authenticate` call finished normally (the batch neither
raised nor ran out of oracle ticks). -/
def AuthStatus.isFinished : AuthStatus → Bool
  | .finished _ => true
  | _ => false

/-- `authenticate`: wait for vault emptiness, log the initiation, run
the AUTHENTICATION batch; on success log completion (or the
no-credentials warning when empty) and populate the vault with the
stringified result mapping; a raised `ActivityError` propagates before
any further event. -/
def authenticate (cap : Nat) (handlers : List HandlerId)
    (ticks : List Outcomes) (title : String) :
    List AuthEvent × AuthStatus :=
  let pre := [AuthEvent.waitForEmptiness,
              AuthEvent.logLine (title ++ " has been initiated."),
              AuthEvent.runBatch]
  match run_activity cap handlers ticks with
  | none => (pre, AuthStatus.running)
  | some (_, Except.error e) => (pre, AuthStatus.failed e)
  | some (_, Except.ok results) =>
    let popArg := results.map (fun p => (toString p.1, p.2))
    let doneLog :=
      if results.isEmpty then
        title ++ " has failed: no credentials were retrieved from the login handlers."
      else
        title ++ " has finished."
    (pre ++ [AuthEvent.logLine doneLog, AuthEvent.populate popArg],
     AuthStatus.finished popArg)

/-- The activity title of the i-th `authenticator` iteration
(0-based): the counter starts at 1 when the vault is initially truthy,
and a non-zero counter selects the re-authentication wording. -/
def iterTitle (v0 : Bool) (i : Nat) : String :=
  if (if v0 then 1 else 0) + i ≠ 0 then "Re-authentication"
  else "Initial authentication"

/-- The `authenticator` loop observed for `fuel` executions of its
body: `Except.ok n` means `n` iterations completed and the loop is
still running (the loop body raised nothing and control returned to the
top); a `failed` iteration propagates its error uncaught. Iteration
`i` runs `authenticate` with the oracle ticks `env i` and the title
`iterTitle v0 i`. -/
def authenticator (cap : Nat) (handlers : List HandlerId)
    (env : Nat → List Outcomes) (v0 : Bool) :
    Nat → Nat → Except ActivityError Nat
  | i, 0 => Except.ok i
  | i, fuel + 1 =>
    match (authenticate cap handlers (env i) (iterTitle v0 i)).2 with
    | AuthStatus.failed e => Except.error e
    | AuthStatus.running => Except.ok i
    | AuthStatus.finished _ => authenticator cap handlers env v0 (i + 1) fuel

/-! ### Association-list lemmas (Python `dict` semantics) -/

/-- The updated pair belongs to the one-key update. -/
theorem mem_assocUpdate_self {β : Type} (m : List (Nat × β)) (k : Nat) (v : β) :
    (k, v) ∈ assocUpdate m k v := by
  unfold assocUpdate
  by_cases h : (m.any fun p => p.1 == k) = true
  · rw [if_pos h]
    rcases List.any_eq_true.mp h with ⟨p, hp, hpk⟩
    refine List.mem_map.mpr ⟨p, hp, ?_⟩
    rw [if_pos hpk]
  · rw [if_neg h]
    exact List.mem_append_right _ (List.mem_singleton.mpr rfl)

/-- Members of a one-key update either come from the original list with
an untouched key, or are the updated pair itself. -/
theorem mem_assocUpdate {β : Type} {m : List (Nat × β)} {k : Nat} {v : β} {q : Nat × β}
    (hq : q ∈ assocUpdate m k v) : (q ∈ m ∧ q.1 ≠ k) ∨ q = (k, v) := by
  unfold assocUpdate at hq
  by_cases h : (m.any fun p => p.1 == k) = true
  · rw [if_pos h] at hq
    rcases List.mem_map.mp hq with ⟨p, hp, hpq⟩
    by_cases hk : (p.1 == k) = true
    · right; rw [if_pos hk] at hpq; exact hpq.symm
    · left
      rw [if_neg hk] at hpq
      subst hpq
      exact ⟨hp, by simpa using hk⟩
  · rw [if_neg h] at hq
    rcases List.mem_append.mp hq with hq | hq
    · left
      refine ⟨hq, fun hkq => h ?_⟩
      exact List.any_eq_true.mpr ⟨q, hq, by simp [hkq]⟩
    · right; simpa using hq

/-- A key present in the original list stays present after a one-key
update. -/
theorem exists_assocUpdate_of_mem {β : Type} {m : List (Nat × β)} {k₀ : Nat} {w : β}
    (h : (k₀, w) ∈ m) (k : Nat) (v : β) : ∃ w₀, (k₀, w₀) ∈ assocUpdate m k v := by
  by_cases hk : k₀ = k
  · subst hk; exact ⟨v, mem_assocUpdate_self m k₀ v⟩
  · unfold assocUpdate
    by_cases ha : (m.any fun p => p.1 == k) = true
    · refine ⟨w, ?_⟩
      rw [if_pos ha]
      refine List.mem_map.mpr ⟨(k₀, w), h, ?_⟩
      simp [hk]
    · exact ⟨w, by rw [if_neg ha]; exact List.mem_append_left _ h⟩

/-- `dictUpdate` over an empty update list. -/
theorem dictUpdate_nil {β : Type} (m : List (Nat × β)) : dictUpdate m [] = m := rfl

/-- `dictUpdate` peels one entry off the update list. -/
theorem dictUpdate_cons {β : Type} (m : List (Nat × β)) (p : Nat × β)
    (new : List (Nat × β)) :
    dictUpdate m (p :: new) = dictUpdate (assocUpdate m p.1 p.2) new := rfl

/-- A key present before a `dict.update` stays present after it. -/
theorem exists_dictUpdate_of_mem_left {β : Type} {m : List (Nat × β)}
    (new : List (Nat × β)) {k : Nat} {w : β}
    (h : (k, w) ∈ m) : ∃ w₀, (k, w₀) ∈ dictUpdate m new := by
  induction new generalizing m w with
  | nil => exact ⟨w, h⟩
  | cons p rest ih =>
    rw [dictUpdate_cons]
    rcases exists_assocUpdate_of_mem h p.1 p.2 with ⟨w₀, hw₀⟩
    exact ih hw₀

/-- A key named by a `dict.update` is present after it. -/
theorem exists_dictUpdate_of_mem_right {β : Type} (m : List (Nat × β))
    {new : List (Nat × β)} {k : Nat} {w : β}
    (h : (k, w) ∈ new) : ∃ w₀, (k, w₀) ∈ dictUpdate m new := by
  induction new generalizing m with
  | nil => cases h
  | cons p rest ih =>
    rw [dictUpdate_cons]
    rcases List.mem_cons.mp h with heq | hmem
    · have hp : (p.1, p.2) ∈ assocUpdate m p.1 p.2 := mem_assocUpdate_self m p.1 p.2
      have hk : k = p.1 := congrArg Prod.fst heq
      rw [hk]
      exact exists_dictUpdate_of_mem_left rest hp
    · exact ih (assocUpdate m p.1 p.2) hmem

/-- Members of a `dict.update` result either come from the original
list with a key untouched by the update, or are one of the updated
pairs. -/
theorem mem_dictUpdate {β : Type} {m new : List (Nat × β)} {q : Nat × β}
    (hq : q ∈ dictUpdate m new) :
    (q ∈ m ∧ ∀ p ∈ new, p.1 ≠ q.1) ∨ ∃ p ∈ new, q = (p.1, p.2) := by
  induction new generalizing m with
  | nil => exact Or.inl ⟨hq, by simp⟩
  | cons p rest ih =>
    rw [dictUpdate_cons] at hq
    rcases ih hq with ⟨hmem, hkeys⟩ | ⟨p₀, hp₀, hpq⟩
    · rcases mem_assocUpdate hmem with ⟨hm, hne⟩ | heq
      · left
        refine ⟨hm, ?_⟩
        intro p₀ hp₀
        rcases List.mem_cons.mp hp₀ with rfl | hp₀
        · exact fun hh => hne hh.symm
        · exact hkeys p₀ hp₀
      · right
        exact ⟨p, List.mem_cons_self _ _, by rw [heq]⟩
    · right; exact ⟨p₀, List.mem_cons_of_mem _ hp₀, hpq⟩

/-- Updating with keys disjoint from the original list appends the
update entries (used for the first pass, whose accumulator is empty). -/
theorem dictUpdate_disjoint {β : Type} {new : List (Nat × β)} :
    ∀ (m : List (Nat × β)), (new.map Prod.fst).Nodup →
      (∀ p ∈ new, ∀ q ∈ m, p.1 ≠ q.1) → dictUpdate m new = m ++ new := by
  induction new with
  | nil => intro m _ _; simp [dictUpdate]
  | cons p rest ih =>
    intro m hnd hdisj
    rw [dictUpdate_cons]
    have hnotin : ¬ ((m.any fun q => q.1 == p.1) = true) := by
      intro hany
      rcases List.any_eq_true.mp hany with ⟨q, hq, hqk⟩
      have hq1 : q.1 = p.1 := by simpa using hqk
      exact hdisj p (List.mem_cons_self _ _) q hq hq1.symm
    have hupd : assocUpdate m p.1 p.2 = m ++ [p] := by
      unfold assocUpdate
      rw [if_neg hnotin]
    have hnd₀ := hnd
    simp only [List.map_cons, List.nodup_cons] at hnd₀
    have hdisj₀ : ∀ p₀ ∈ rest, ∀ q ∈ m ++ [p], p₀.1 ≠ q.1 := by
      intro p₀ hp₀ q hq
      rcases List.mem_append.mp hq with hq | hq
      · exact hdisj p₀ (List.mem_cons_of_mem _ hp₀) q hq
      · have hqp : q = p := List.mem_singleton.mp hq
        intro hcontra
        exact hnd₀.1 (List.mem_map.mpr ⟨p₀, hp₀, hcontra.trans (congrArg Prod.fst hqp)⟩)
    rw [hupd, ih (m ++ [p]) hnd₀.2 hdisj₀, List.append_assoc]
    rfl

/-- Updating the empty dictionary with duplicate-free keys is the
identity. -/
theorem dictUpdate_nil_left {β : Type} {new : List (Nat × β)}
    (h : (new.map Prod.fst).Nodup) : dictUpdate [] new = new := by
  simpa using dictUpdate_disjoint [] h (by simp)

/-! ### Loop lemmas for the batch runner -/

/-- A positive merged delay makes the loop sleep exactly
`min(delay, cap)`. -/
theorem passSleep_eq {cap : Nat} {st : State} {d : Nat}
    (h1 : State.delay st = some d) (h2 : d ≠ 0) :
    passSleep cap st = [Nat.min d cap] := by
  simp [passSleep, h1, h2]

/-- Any emitted inter-pass sleep is `min(delay, cap)` for a positive
requested delay. -/
theorem mem_passSleep {cap : Nat} {st : State} {s : Nat} (h : s ∈ passSleep cap st) :
    ∃ d, d ≠ 0 ∧ s = Nat.min d cap := by
  unfold passSleep at h
  cases hd : State.delay st with
  | none =>
    rw [hd] at h
    cases h
  | some d =>
    rw [hd] at h
    have h₂ : s ∈ (if d = 0 then ([] : List Nat) else [Nat.min d cap]) := h
    by_cases h0 : d = 0
    · rw [if_pos h0] at h₂
      cases h₂
    · rw [if_neg h0] at h₂
      have hs : s = Nat.min d cap := List.mem_singleton.mp h₂
      exact ⟨d, h0, hs⟩

/-- A done state exits the loop immediately, with no pass and no sleep. -/
theorem runPasses_done {cap : Nat} {ticks : List Outcomes} {state : State} {acc : Outcomes}
    (h : State.done state = true) : runPasses cap ticks state acc = some ⟨acc, [], 0⟩ := by
  cases ticks <;> simp [runPasses, h]

/-- An unfinished state with no remaining oracle ticks leaves the run
undetermined. -/
theorem runPasses_nil {cap : Nat} {state : State} {acc : Outcomes}
    (h : State.done state = false) : runPasses cap [] state acc = none := by
  simp [runPasses, h]

/-- One loop iteration of an unfinished state: merge the tick, emit the
sleep of the merged delay, continue. -/
theorem runPasses_cons {cap : Nat} {t : Outcomes} {rest : List Outcomes} {state : State}
    {acc : Outcomes} (h : State.done state = false) :
    runPasses cap (t :: rest) state acc =
      match runPasses cap rest (State.with_outcomes state t) (dictUpdate acc t) with
      | none => none
      | some r =>
        some ⟨r.outcomes, passSleep cap (State.with_outcomes state t) ++ r.sleeps,
              r.passes + 1⟩ := by
  simp [runPasses, h]

/-- Every key accumulated so far, and every key of every consumed pass,
appears in the final outcome mapping of a finished loop. -/
theorem runPasses_outcomes_spec {cap : Nat} {ticks : List Outcomes} {state : State}
    {acc : Outcomes} {r : BatchRun} (h : runPasses cap ticks state acc = some r) :
    (∀ k w, (k, w) ∈ acc → ∃ w₀, (k, w₀) ∈ r.outcomes) ∧
    (∀ i, i < r.passes → ∀ p ∈ ticks.getD i [], ∃ w, (p.1, w) ∈ r.outcomes) := by
  induction ticks generalizing state acc r with
  | nil =>
    by_cases hd : State.done state = true
    · rw [runPasses_done hd] at h
      cases h
      exact ⟨fun k w hk => ⟨w, hk⟩, fun i hi => absurd hi (Nat.not_lt_zero i)⟩
    · rw [runPasses_nil (Bool.eq_false_iff.mpr hd)] at h
      cases h
  | cons t rest ih =>
    by_cases hd : State.done state = true
    · rw [runPasses_done hd] at h
      cases h
      exact ⟨fun k w hk => ⟨w, hk⟩, fun i hi => absurd hi (Nat.not_lt_zero i)⟩
    · rw [runPasses_cons (Bool.eq_false_iff.mpr hd)] at h
      cases hrec : runPasses cap rest (State.with_outcomes state t) (dictUpdate acc t) with
      | none => rw [hrec] at h; cases h
      | some r₀ =>
        rw [hrec] at h
        cases h
        obtain ⟨ih1, ih2⟩ := ih hrec
        constructor
        · intro k w hk
          rcases exists_dictUpdate_of_mem_left t hk with ⟨w₀, hw₀⟩
          exact ih1 k w₀ hw₀
        · intro i hi p hp
          cases i with
          | zero =>
            have hpt : (p.1, p.2) ∈ t := by simpa using hp
            rcases exists_dictUpdate_of_mem_right acc hpt with ⟨w, hw⟩
            exact ih1 p.1 w hw
          | succ i =>
            exact ih2 i (by simpa using hi) p (by simpa using hp)

/-- Every sleep a finished loop emitted is `min(delay, cap)` for some
positive requested delay. -/
theorem runPasses_sleeps_spec {cap : Nat} {ticks : List Outcomes} {state : State}
    {acc : Outcomes} {r : BatchRun} (h : runPasses cap ticks state acc = some r) :
    ∀ s ∈ r.sleeps, ∃ d, d ≠ 0 ∧ s = Nat.min d cap := by
  induction ticks generalizing state acc r with
  | nil =>
    by_cases hd : State.done state = true
    · rw [runPasses_done hd] at h
      cases h
      intro s hs
      cases hs
    · rw [runPasses_nil (Bool.eq_false_iff.mpr hd)] at h
      cases h
  | cons t rest ih =>
    by_cases hd : State.done state = true
    · rw [runPasses_done hd] at h
      cases h
      intro s hs
      cases hs
    · rw [runPasses_cons (Bool.eq_false_iff.mpr hd)] at h
      cases hrec : runPasses cap rest (State.with_outcomes state t) (dictUpdate acc t) with
      | none => rw [hrec] at h; cases h
      | some r₀ =>
        rw [hrec] at h
        cases h
        intro s hs
        rcases List.mem_append.mp hs with hs | hs
        · exact mem_passSleep hs
        · exact ih hrec s hs

/-! ### Outcome aggregation lemmas -/

/-- No first exception exists exactly when no accumulated outcome
carries one. -/
theorem firstException_none_iff {l : Outcomes} :
    firstException l = none ↔ ∀ p ∈ l, p.2.exception = none := by
  unfold firstException
  rw [List.head?_eq_none_iff, List.filterMap_eq_nil_iff]

/-- The first exception is the exception of the earliest entry of the
outcome mapping that carries one: every earlier entry is exception-free. -/
theorem firstException_spec {l : Outcomes} {e : Exn} (h : firstException l = some e) :
    ∃ i, ∃ hi : i < l.length,
      (l.get ⟨i, hi⟩).2.exception = some e ∧
      ∀ j, ∀ hj : j < l.length, j < i → (l.get ⟨j, hj⟩).2.exception = none := by
  induction l with
  | nil => cases h
  | cons p rest ih =>
    unfold firstException at h
    rw [List.filterMap_cons] at h
    cases hex : p.2.exception with
    | some ex =>
      rw [hex] at h
      have hee : ex = e := by simpa using h
      refine ⟨0, by simp, ?_, ?_⟩
      · simpa [hex] using hee
      · intro j hj hj0
        exact absurd hj0 (Nat.not_lt_zero j)
    | none =>
      rw [hex] at h
      rcases ih h with ⟨i, hi, hget, hprev⟩
      refine ⟨i + 1, by simpa using Nat.succ_lt_succ hi, by simpa using hget, ?_⟩
      intro j hj hji
      cases j with
      | zero => simpa using hex
      | succ j =>
        have hjr : j < rest.length := by simpa using hj
        have := hprev j hjr (by omega)
        simpa using this

/-- A result belongs to the returned result mapping exactly when the
corresponding outcome is a success carrying that value. -/
theorem mem_successResults {l : Outcomes} {k : HandlerId} {r : Res}
    (Hsucc : ∀ p ∈ l, p.2.isSuccess = true) :
    (k, r) ∈ successResults l ↔ (k, HandlerOutcome.success (some r)) ∈ l := by
  constructor
  · intro h
    rcases List.mem_filterMap.mp h with ⟨p, hp, hmap⟩
    obtain ⟨k₀, o⟩ := p
    rcases Option.map_eq_some'.mp hmap with ⟨r₀, hres, heq⟩
    have h1 : k₀ = k := congrArg Prod.fst heq
    have h2 : r₀ = r := congrArg Prod.snd heq
    have hps := Hsucc (k₀, o) hp
    cases o with
    | success ro =>
      have hro : ro = some r := by
        simpa [HandlerOutcome.result, h2] using hres
      rw [h1, hro] at hp
      exact hp
    | temporary e d => simp [HandlerOutcome.isSuccess] at hps
    | permanent e => simp [HandlerOutcome.isSuccess] at hps
    | pending => simp [HandlerOutcome.isSuccess] at hps
  · intro h
    exact List.mem_filterMap.mpr ⟨(k, HandlerOutcome.success (some r)), h, rfl⟩

/-- `State.from_scratch` is done exactly for the empty handler set. -/
theorem done_from_scratch (handlers : List HandlerId) :
    State.done (State.from_scratch handlers) = true ↔ handlers = [] := by
  cases handlers with
  | nil => exact ⟨fun _ => rfl, fun _ => rfl⟩
  | cons a as =>
    constructor
    · intro hall
      exfalso
      unfold State.done at hall
      have hmem : (a, HandlerOutcome.pending) ∈ State.from_scratch (a :: as) := by
        simp [State.from_scratch]
      have := List.all_eq_true.mp hall _ hmem
      simp [HandlerOutcome.finalized] at this
    · intro hcontra
      cases hcontra

/-- When the first pass yields a success outcome for a key of every
handler, the merged state is done. -/
theorem state_done_of_all_success {handlers : List HandlerId} {t : Outcomes}
    (Hsucc : ∀ p ∈ t, p.2.isSuccess = true)
    (Hcover : ∀ h ∈ handlers, h ∈ t.map Prod.fst) :
    State.done (State.with_outcomes (State.from_scratch handlers) t) = true := by
  unfold State.done
  rw [List.all_eq_true]
  intro p hp
  rcases mem_dictUpdate hp with ⟨hm, hkeys⟩ | ⟨p₀, hp₀, hpq⟩
  · exfalso
    rcases List.mem_map.mp hm with ⟨a, ha, hap⟩
    rcases List.mem_map.mp (Hcover a ha) with ⟨q, hq, hqa⟩
    have : q.1 ≠ p.1 := hkeys q hq
    rw [hqa, ← hap] at this
    exact this rfl
  · have hps := Hsucc p₀ hp₀
    rw [hpq]
    cases ho : p₀.2 with
    | success ro => simp [HandlerOutcome.finalized]
    | temporary e d => rw [ho] at hps; simp [HandlerOutcome.isSuccess] at hps
    | permanent e => rw [ho] at hps; simp [HandlerOutcome.isSuccess] at hps
    | pending => rw [ho] at hps; simp [HandlerOutcome.isSuccess] at hps

/-- When the first pass yields only success outcomes, the merged state
requests no retry delay. -/
theorem state_delay_of_all_success {handlers : List HandlerId} {t : Outcomes}
    (Hsucc : ∀ p ∈ t, p.2.isSuccess = true) :
    State.delay (State.with_outcomes (State.from_scratch handlers) t) = none := by
  unfold State.delay
  have hnil : (State.with_outcomes (State.from_scratch handlers) t).filterMap
      (fun p => p.2.tempDelay) = [] := by
    rw [List.filterMap_eq_nil_iff]
    intro p hp
    rcases mem_dictUpdate hp with ⟨hm, _⟩ | ⟨p₀, hp₀, hpq⟩
    · rcases List.mem_map.mp hm with ⟨a, ha, hap⟩
      rw [← hap]
      rfl
    · have hps := Hsucc p₀ hp₀
      rw [hpq]
      cases ho : p₀.2 with
      | success ro => simp [HandlerOutcome.tempDelay]
      | temporary e d => rw [ho] at hps; simp [HandlerOutcome.isSuccess] at hps
      | permanent e => rw [ho] at hps; simp [HandlerOutcome.isSuccess] at hps
      | pending => rw [ho] at hps; simp [HandlerOutcome.isSuccess] at hps
  rw [hnil]

/-! ### Claim theorems -/

/-- C1: for every batch, `run_activity` raises `ActivityError` if and
only if, at loop exit, at least one accumulated handler outcome carries
a non-absent exception; the raised error carries the complete outcome
mapping for every handler invoked across all passes, not only the
failing ones. -/
theorem run_activity_raises_iff_exception (cap : Nat) (handlers : List HandlerId)
    (ticks : List Outcomes) (r : BatchRun)
    (h : runActivityFull cap handlers ticks = some r) :
    ((∃ e, run_activity cap handlers ticks = some (r.sleeps, Except.error e)) ↔
      ∃ p ∈ r.outcomes, p.2.exception ≠ none) ∧
    (∀ sl e, run_activity cap handlers ticks = some (sl, Except.error e) →
      e.outcomes = r.outcomes) ∧
    (∀ i, i < r.passes → ∀ p ∈ ticks.getD i [], ∃ w, (p.1, w) ∈ r.outcomes) := by
  have hrun : run_activity cap handlers ticks = some (r.sleeps, finishRun r.outcomes) := by
    unfold run_activity
    rw [h]
    rfl
  have h₀ : runPasses cap ticks (State.from_scratch handlers) [] = some r := h
  refine ⟨⟨?_, ?_⟩, ?_, ?_⟩
  · rintro ⟨e, he⟩
    have hpair := Option.some.inj (hrun.symm.trans he)
    have hfe : finishRun r.outcomes = Except.error e := congrArg Prod.snd hpair
    by_contra hno
    push_neg at hno
    have hfx : firstException r.outcomes = none := firstException_none_iff.mpr hno
    unfold finishRun at hfe
    rw [hfx] at hfe
    cases hfe
  · rintro ⟨p, hp, hpe⟩
    cases hfx : firstException r.outcomes with
    | none => exact absurd (firstException_none_iff.mp hfx p hp) hpe
    | some e₀ =>
      refine ⟨⟨"One or more handlers failed.", r.outcomes, e₀⟩, ?_⟩
      rw [hrun]
      unfold finishRun
      rw [hfx]
  · intro sl e he
    have hpair := Option.some.inj (hrun.symm.trans he)
    have hfe : finishRun r.outcomes = Except.error e := congrArg Prod.snd hpair
    unfold finishRun at hfe
    cases hfx : firstException r.outcomes with
    | none => rw [hfx] at hfe; cases hfe
    | some e₀ =>
      rw [hfx] at hfe
      injection hfe with he₂
      rw [← he₂]
  · exact (runPasses_outcomes_spec h₀).2

/-- C1 witness: a concrete two-pass batch in which handler 1 succeeds
and handler 2 fails temporarily, then permanently. -/
theorem run_activity_raises_iff_exception_witness :
    ((∃ e, run_activity 10 [1, 2]
        [[(1, HandlerOutcome.success (some 7)), (2, HandlerOutcome.temporary 4 5)],
         [(2, HandlerOutcome.permanent 9)]] = some ([5], Except.error e)) ↔
      ∃ p ∈ [(1, HandlerOutcome.success (some 7)), (2, HandlerOutcome.permanent 9)],
        p.2.exception ≠ none) ∧
    (∀ sl e, run_activity 10 [1, 2]
        [[(1, HandlerOutcome.success (some 7)), (2, HandlerOutcome.temporary 4 5)],
         [(2, HandlerOutcome.permanent 9)]] = some (sl, Except.error e) →
      e.outcomes = [(1, HandlerOutcome.success (some 7)), (2, HandlerOutcome.permanent 9)]) ∧
    (∀ i, i < 2 → ∀ p ∈ ([[(1, HandlerOutcome.success (some 7)), (2, HandlerOutcome.temporary 4 5)],
         [(2, HandlerOutcome.permanent 9)]].getD i []), ∃ w,
      (p.1, w) ∈ [(1, HandlerOutcome.success (some 7)), (2, HandlerOutcome.permanent 9)]) :=
  run_activity_raises_iff_exception 10 [1, 2]
    [[(1, HandlerOutcome.success (some 7)), (2, HandlerOutcome.temporary 4 5)],
     [(2, HandlerOutcome.permanent 9)]]
    ⟨[(1, HandlerOutcome.success (some 7)), (2, HandlerOutcome.permanent 9)], [5], 2⟩
    (by decide)

/-- C2 counterexample: handler 1 succeeds with a credential and handler
2 fails permanently in the same pass; `authenticate` ends with the
propagating `ActivityError` and never calls `vault.populate`, so the
vault is not populated with the successful subset. -/
theorem authenticate_partial_failure_no_populate :
    (authenticate 600 [1, 2]
        [[(1, HandlerOutcome.success (some 10)), (2, HandlerOutcome.permanent 5)]]
        "Authentication").1 =
      [AuthEvent.waitForEmptiness, AuthEvent.logLine "Authentication has been initiated.",
       AuthEvent.runBatch] ∧
    (authenticate 600 [1, 2]
        [[(1, HandlerOutcome.success (some 10)), (2, HandlerOutcome.permanent 5)]]
        "Authentication").2 =
      AuthStatus.failed ⟨"One or more handlers failed.",
        [(1, HandlerOutcome.success (some 10)), (2, HandlerOutcome.permanent 5)], 5⟩ ∧
    ((authenticate 600 [1, 2]
        [[(1, HandlerOutcome.success (some 10)), (2, HandlerOutcome.permanent 5)]]
        "Authentication").1.any AuthEvent.isPopulate) = false := by
  decide

/-- C2 amended: whenever `run_activity` raises an `ActivityError`,
`authenticate` does not call `vault.populate` at all and the error
propagates; the vault is populated with the successful subset only when
no handler final outcome carries an exception. -/
theorem authenticate_error_skips_populate (cap : Nat) (handlers : List HandlerId)
    (ticks : List Outcomes) (title : String) (sl : List Nat) (e : ActivityError)
    (h : run_activity cap handlers ticks = some (sl, Except.error e)) :
    (authenticate cap handlers ticks title).2 = AuthStatus.failed e ∧
    ((authenticate cap handlers ticks title).1.any AuthEvent.isPopulate) = false := by
  unfold authenticate
  rw [h]
  exact ⟨rfl, rfl⟩

/-- C2 amended witness: the same concrete partial-failure batch. -/
theorem authenticate_error_skips_populate_witness :
    (authenticate 600 [1, 2]
        [[(1, HandlerOutcome.success (some 10)), (2, HandlerOutcome.permanent 5)]]
        "Auth").2 =
      AuthStatus.failed ⟨"One or more handlers failed.",
        [(1, HandlerOutcome.success (some 10)), (2, HandlerOutcome.permanent 5)], 5⟩ ∧
    ((authenticate 600 [1, 2]
        [[(1, HandlerOutcome.success (some 10)), (2, HandlerOutcome.permanent 5)]]
        "Auth").1.any AuthEvent.isPopulate) = false :=
  authenticate_error_skips_populate 600 [1, 2]
    [[(1, HandlerOutcome.success (some 10)), (2, HandlerOutcome.permanent 5)]] "Auth" []
    ⟨"One or more handlers failed.",
      [(1, HandlerOutcome.success (some 10)), (2, HandlerOutcome.permanent 5)], 5⟩
    (by decide)

/-- C3: a batch whose single first pass yields a success outcome for
every handler returns exactly the handlers with non-absent results,
omitting absent ones, and performs no inter-pass sleep. -/
theorem run_activity_all_success_first_pass (cap : Nat) (handlers : List HandlerId)
    (t : Outcomes)
    (Hkeys : ∀ p ∈ t, p.1 ∈ handlers)
    (Hnodup : (t.map Prod.fst).Nodup)
    (Hsucc : ∀ p ∈ t, p.2.isSuccess = true)
    (Hcover : ∀ h ∈ handlers, h ∈ t.map Prod.fst) :
    run_activity cap handlers [t] = some ([], Except.ok (successResults t)) ∧
    ∀ k r, ((k, r) ∈ successResults t ↔ (k, HandlerOutcome.success (some r)) ∈ t) := by
  refine ⟨?_, fun k r => mem_successResults Hsucc⟩
  have hfe : firstException t = none := by
    refine firstException_none_iff.mpr fun p hp => ?_
    have hps := Hsucc p hp
    cases ho : p.2 with
    | success ro => rfl
    | temporary e d => rw [ho] at hps; simp [HandlerOutcome.isSuccess] at hps
    | permanent e => rw [ho] at hps; simp [HandlerOutcome.isSuccess] at hps
    | pending => rw [ho] at hps; simp [HandlerOutcome.isSuccess] at hps
  by_cases hemp : handlers = []
  · subst hemp
    have ht : t = [] := by
      cases t with
      | nil => rfl
      | cons p ps => exact absurd (Hkeys p (List.mem_cons_self p ps)) (by simp)
    subst ht
    rfl
  · have hnotdone : State.done (State.from_scratch handlers) = false := by
      cases hdone : State.done (State.from_scratch handlers) with
      | false => rfl
      | true => exact absurd ((done_from_scratch handlers).mp hdone) hemp
    have hdone₂ : State.done (State.with_outcomes (State.from_scratch handlers) t) = true :=
      state_done_of_all_success Hsucc Hcover
    have hsleep : passSleep cap (State.with_outcomes (State.from_scratch handlers) t) = [] := by
      unfold passSleep
      rw [state_delay_of_all_success Hsucc]
    have hacc : dictUpdate [] t = t := dictUpdate_nil_left Hnodup
    unfold run_activity runActivityFull
    rw [runPasses_cons hnotdone, runPasses_done hdone₂, hacc, hsleep]
    simp only [Option.map_some', List.nil_append]
    unfold finishRun
    rw [hfe]

/-- C3 witness: two handlers succeeding on the first pass, one with an
absent (side-effect-only) result that is omitted from the returned
mapping. -/
theorem run_activity_all_success_first_pass_witness :
    run_activity 7 [1, 2] [[(2, HandlerOutcome.success (some 20)),
        (1, HandlerOutcome.success none)]] =
      some ([], Except.ok [(2, 20)]) ∧
    ∀ k r, ((k, r) ∈ successResults [(2, HandlerOutcome.success (some 20)),
        (1, HandlerOutcome.success none)] ↔
      (k, HandlerOutcome.success (some r)) ∈ [(2, HandlerOutcome.success (some 20)),
        (1, HandlerOutcome.success none)]) :=
  run_activity_all_success_first_pass 7 [1, 2]
    [(2, HandlerOutcome.success (some 20)), (1, HandlerOutcome.success none)]
    (by decide) (by decide) (by decide) (by decide)

/-- C4: after any pass whose merged state reports a positive retry
delay, the duration passed to the sleep primitive is exactly
`min(state.delay, cap)`, and every sleep of a batch run is bounded by
the cap even when a handler requests a larger backoff. -/
theorem sleep_capped (cap : Nat) :
    (∀ st d, State.delay st = some d → d ≠ 0 →
      passSleep cap st = [Nat.min d cap] ∧ Nat.min d cap ≤ cap) ∧
    (∀ handlers ticks r, runActivityFull cap handlers ticks = some r →
      ∀ s ∈ r.sleeps, s ≤ cap) := by
  constructor
  · intro st d h1 h2
    exact ⟨passSleep_eq h1 h2, Nat.min_le_right d cap⟩
  · intro handlers ticks r h s hs
    have h₀ : runPasses cap ticks (State.from_scratch handlers) [] = some r := h
    rcases runPasses_sleeps_spec h₀ s hs with ⟨d, hd, hsd⟩
    rw [hsd]
    exact Nat.min_le_right d cap

/-- C4 witness: a handler requesting a 3600-unit backoff under a cap of
10 sleeps `min 3600 10`, and the concrete two-pass run above only ever
sleeps at most the cap. -/
theorem sleep_capped_witness :
    (passSleep 10 [(2, HandlerOutcome.temporary 4 3600)] = [Nat.min 3600 10] ∧
      Nat.min 3600 10 ≤ 10) ∧ 5 ≤ 10 :=
  ⟨(sleep_capped 10).1 [(2, HandlerOutcome.temporary 4 3600)] 3600 (by decide) (by decide),
   (sleep_capped 10).2 [1, 2]
     [[(1, HandlerOutcome.success (some 7)), (2, HandlerOutcome.temporary 4 5)],
      [(2, HandlerOutcome.permanent 9)]]
     ⟨[(1, HandlerOutcome.success (some 7)), (2, HandlerOutcome.permanent 9)], [5], 2⟩
     (by decide) 5 (by decide)⟩

/-- C5: in every `authenticate` call (hence in every iteration of the
authenticator loop, whose body is exactly one such call), the
AUTHENTICATION batch is started only after `vault.wait_for_emptiness`
has returned: the event trace begins with the wait, and no batch start
or wait occurs afterwards. -/
theorem wait_precedes_batch (cap : Nat) (handlers : List HandlerId)
    (ticks : List Outcomes) (title : String) :
    ∃ rest, (authenticate cap handlers ticks title).1 =
      AuthEvent.waitForEmptiness ::
        AuthEvent.logLine (title ++ " has been initiated.") ::
          AuthEvent.runBatch :: rest ∧
      AuthEvent.runBatch ∉ rest ∧ AuthEvent.waitForEmptiness ∉ rest := by
  unfold authenticate
  rcases hres : run_activity cap handlers ticks with _ | ⟨sl, e | results⟩
  · exact ⟨[], rfl, by simp, by simp⟩
  · exact ⟨[], rfl, by simp, by simp⟩
  · refine ⟨_, rfl, ?_, ?_⟩ <;> simp

/-- C6: whenever `run_activity` raises an `ActivityError`, the attached
proximate cause is the exception of the earliest entry of the outcome
mapping that carries one — every earlier outcome is exception-free. -/
theorem activity_error_cause_is_first (cap : Nat) (handlers : List HandlerId)
    (ticks : List Outcomes) (sl : List Nat) (e : ActivityError)
    (h : run_activity cap handlers ticks = some (sl, Except.error e)) :
    ∃ i, ∃ hi : i < e.outcomes.length,
      (e.outcomes.get ⟨i, hi⟩).2.exception = some e.cause ∧
      ∀ j, ∀ hj : j < e.outcomes.length, j < i →
        (e.outcomes.get ⟨j, hj⟩).2.exception = none := by
  unfold run_activity at h
  cases hfull : runActivityFull cap handlers ticks with
  | none => rw [hfull] at h; cases h
  | some r =>
    rw [hfull] at h
    simp only [Option.map_some'] at h
    have hpair := Option.some.inj h
    have hfe : finishRun r.outcomes = Except.error e := congrArg Prod.snd hpair
    unfold finishRun at hfe
    cases hfx : firstException r.outcomes with
    | none => rw [hfx] at hfe; cases hfe
    | some e₀ =>
      rw [hfx] at hfe
      injection hfe with he₂
      rw [← he₂]
      exact firstException_spec hfx

/-- C6 witness: in the concrete failing batch, the cause 9 is the
exception of the earliest failing entry of the outcome mapping. -/
theorem activity_error_cause_is_first_witness :
    ∃ i, ∃ hi : i < (ActivityError.mk "One or more handlers failed."
        [(1, HandlerOutcome.success (some 7)), (2, HandlerOutcome.permanent 9)] 9).outcomes.length,
      ((ActivityError.mk "One or more handlers failed."
        [(1, HandlerOutcome.success (some 7)), (2, HandlerOutcome.permanent 9)] 9).outcomes.get
          ⟨i, hi⟩).2.exception = some (ActivityError.mk "One or more handlers failed."
        [(1, HandlerOutcome.success (some 7)), (2, HandlerOutcome.permanent 9)] 9).cause ∧
      ∀ j, ∀ hj : j < (ActivityError.mk "One or more handlers failed."
        [(1, HandlerOutcome.success (some 7)), (2, HandlerOutcome.permanent 9)] 9).outcomes.length,
        j < i → ((ActivityError.mk "One or more handlers failed."
          [(1, HandlerOutcome.success (some 7)), (2, HandlerOutcome.permanent 9)] 9).outcomes.get
            ⟨j, hj⟩).2.exception = none :=
  activity_error_cause_is_first 10 [1, 2]
    [[(1, HandlerOutcome.success (some 7)), (2, HandlerOutcome.temporary 4 5)],
     [(2, HandlerOutcome.permanent 9)]] [5]
    ⟨"One or more handlers failed.",
     [(1, HandlerOutcome.success (some 7)), (2, HandlerOutcome.permanent 9)], 9⟩
    (by decide)

/-- C7: on a successful batch, the mapping passed to `vault.populate`
has exactly the entries of the result mapping returned by
`run_activity`, each key stringified and each value unchanged. -/
theorem populate_matches_results (cap : Nat) (handlers : List HandlerId)
    (ticks : List Outcomes) (title : String) (sl : List Nat)
    (rs : List (HandlerId × Res))
    (h : run_activity cap handlers ticks = some (sl, Except.ok rs)) :
    (authenticate cap handlers ticks title).2 =
      AuthStatus.finished (rs.map (fun p => (toString p.1, p.2))) ∧
    AuthEvent.populate (rs.map (fun p => (toString p.1, p.2))) ∈
      (authenticate cap handlers ticks title).1 ∧
    (∀ p ∈ rs, (toString p.1, p.2) ∈ rs.map (fun p => (toString p.1, p.2))) ∧
    (∀ q ∈ rs.map (fun p => (toString p.1, p.2)), ∃ p ∈ rs, q = (toString p.1, p.2)) := by
  unfold authenticate
  rw [h]
  refine ⟨rfl, ?_, ?_, ?_⟩
  · simp
  · intro p hp
    exact List.mem_map.mpr ⟨p, hp, rfl⟩
  · intro q hq
    rcases List.mem_map.mp hq with ⟨p, hp, hpq⟩
    exact ⟨p, hp, hpq.symm⟩

/-- C7 witness: a one-handler success, populated as
`{"1": 7}` from the result mapping `{1: 7}`. -/
theorem populate_matches_results_witness :
    (authenticate 10 [1] [[(1, HandlerOutcome.success (some 7))]] "Authentication").2 =
      AuthStatus.finished ([(1, 7)].map (fun p => (toString p.1, p.2))) ∧
    AuthEvent.populate ([(1, 7)].map (fun p => (toString p.1, p.2))) ∈
      (authenticate 10 [1] [[(1, HandlerOutcome.success (some 7))]] "Authentication").1 ∧
    (∀ p ∈ ([(1, 7)] : List (HandlerId × Res)),
      (toString p.1, p.2) ∈ ([(1, 7)] : List (HandlerId × Res)).map
        (fun p => (toString p.1, p.2))) ∧
    (∀ q ∈ ([(1, 7)] : List (HandlerId × Res)).map (fun p => (toString p.1, p.2)),
      ∃ p ∈ ([(1, 7)] : List (HandlerId × Res)), q = (toString p.1, p.2)) :=
  populate_matches_results 10 [1] [[(1, HandlerOutcome.success (some 7))]]
    "Authentication" [] [(1, 7)] (by decide)

/-- C8: an activity with an empty handler sequence completes
immediately: no pass is made, no sleep is performed, no error is
raised, and the empty result mapping is returned — indeed a fresh state
is done exactly for an empty handler set. -/
theorem empty_handlers_immediate (cap : Nat) (ticks : List Outcomes) :
    runActivityFull cap [] ticks = some ⟨[], [], 0⟩ ∧
    run_activity cap [] ticks = some ([], Except.ok []) ∧
    ∀ handlers : List HandlerId,
      (State.done (State.from_scratch handlers) = true ↔ handlers = []) := by
  have h0 : runActivityFull cap [] ticks = some ⟨[], [], 0⟩ := runPasses_done rfl
  refine ⟨h0, ?_, done_from_scratch⟩
  unfold run_activity
  rw [h0]
  rfl

/-- C9: the authenticator loop never returns normally — after any
number of completed iterations the loop is still running and enters the
next iteration — and an `ActivityError` raised by the batch run is not
caught anywhere inside `authenticator` or `authenticate`: it
propagates out unchanged. -/
theorem authenticator_runs_forever (cap : Nat) (handlers : List HandlerId)
    (env : Nat → List Outcomes) (v0 : Bool) :
    ((∀ j, (authenticate cap handlers (env j) (iterTitle v0 j)).2.isFinished = true) →
      ∀ i fuel, authenticator cap handlers env v0 i fuel = Except.ok (i + fuel)) ∧
    (∀ k e,
      (∀ j, j < k → (authenticate cap handlers (env j) (iterTitle v0 j)).2.isFinished = true) →
      (authenticate cap handlers (env k) (iterTitle v0 k)).2 = AuthStatus.failed e →
      ∀ i fuel, i ≤ k → k < i + fuel →
        authenticator cap handlers env v0 i fuel = Except.error e) := by
  constructor
  · intro hall i fuel
    induction fuel generalizing i with
    | zero => rfl
    | succ fuel ih =>
      have hfin := hall i
      cases hst : (authenticate cap handlers (env i) (iterTitle v0 i)).2 with
      | running => rw [hst] at hfin; simp [AuthStatus.isFinished] at hfin
      | failed e => rw [hst] at hfin; simp [AuthStatus.isFinished] at hfin
      | finished m =>
        show (match (authenticate cap handlers (env i) (iterTitle v0 i)).2 with
          | AuthStatus.failed e => Except.error e
          | AuthStatus.running => Except.ok i
          | AuthStatus.finished _ => authenticator cap handlers env v0 (i + 1) fuel) =
            Except.ok (i + (fuel + 1))
        rw [hst, ih (i + 1)]
        exact congrArg Except.ok (by omega)
  · intro k e hprev hfail i fuel
    induction fuel generalizing i with
    | zero =>
      intro hik hlt
      exact absurd hlt (by omega)
    | succ fuel ih =>
      intro hik hlt
      by_cases hik₂ : i = k
      · subst hik₂
        show (match (authenticate cap handlers (env i) (iterTitle v0 i)).2 with
          | AuthStatus.failed e => Except.error e
          | AuthStatus.running => Except.ok i
          | AuthStatus.finished _ => authenticator cap handlers env v0 (i + 1) fuel) =
            Except.error e
        rw [hfail]
      · have hik₃ : i < k := lt_of_le_of_ne hik hik₂
        have hfin := hprev i hik₃
        cases hst : (authenticate cap handlers (env i) (iterTitle v0 i)).2 with
        | running => rw [hst] at hfin; simp [AuthStatus.isFinished] at hfin
        | failed e₂ => rw [hst] at hfin; simp [AuthStatus.isFinished] at hfin
        | finished m =>
          show (match (authenticate cap handlers (env i) (iterTitle v0 i)).2 with
            | AuthStatus.failed e => Except.error e
            | AuthStatus.running => Except.ok i
            | AuthStatus.finished _ => authenticator cap handlers env v0 (i + 1) fuel) =
              Except.error e
          rw [hst]
          exact ih (i + 1) (by omega) (by omega)

/-- C9 witness: with always-finishing authentication the loop completes
any requested number of iterations and keeps running; with a failing
first iteration the error propagates out unchanged. -/
theorem authenticator_runs_forever_witness :
    authenticator 5 [] (fun _ => []) false 0 3 = Except.ok 3 ∧
    authenticator 5 [1] (fun _ => [[(1, HandlerOutcome.permanent 7)]]) false 0 1 =
      Except.error ⟨"One or more handlers failed.", [(1, HandlerOutcome.permanent 7)], 7⟩ := by
  constructor
  · exact (authenticator_runs_forever 5 [] (fun _ => []) false).1 (fun j => rfl) 0 3
  · exact (authenticator_runs_forever 5 [1]
      (fun _ => [[(1, HandlerOutcome.permanent 7)]]) false).2 0
      ⟨"One or more handlers failed.", [(1, HandlerOutcome.permanent 7)], 7⟩
      (fun j hj => absurd hj (Nat.not_lt_zero j)) (by decide) 0 1 (Nat.le_refl 0) (by decide)

/-- C10: the log title depends on the vault's initial truthiness — a
truthy initial vault titles every iteration, including the first,
"Re-authentication", while an empty one titles only the first iteration
"Initial authentication" — and the executed behavior (status and
non-log events) is identical whatever the title. -/
theorem titles_depend_on_initial_vault :
    (∀ i, iterTitle true i = "Re-authentication") ∧
    (iterTitle false 0 = "Initial authentication") ∧
    (∀ i, iterTitle false (i + 1) = "Re-authentication") ∧
    (∀ cap handlers ticks t₁ t₂,
      (authenticate cap handlers ticks t₁).2 = (authenticate cap handlers ticks t₂).2 ∧
      (authenticate cap handlers ticks t₁).1.filter (fun ev => !AuthEvent.isLog ev) =
        (authenticate cap handlers ticks t₂).1.filter (fun ev => !AuthEvent.isLog ev)) := by
  refine ⟨?_, rfl, ?_, ?_⟩
  · intro i
    simp [iterTitle]
  · intro i
    simp [iterTitle]
  · intro cap handlers ticks t₁ t₂
    unfold authenticate
    rcases hres : run_activity cap handlers ticks with _ | ⟨sl, e | results⟩ <;>
      exact ⟨rfl, rfl⟩

end Kopf
